import Mathlib

/-!
Verification development for the TCP connection core of the zephyr
repository (src/subsys/net/ip/tcp.h).  The header file gives the data
model (the net_tcp control block, the state enum, flag bits, option
codes and sizes, default constants) and the declarations plus doc
comments of the operations; the implementations (tcp.c) are not part
of the source tree, so each operation is modelled from the spec, as
marked in its doc comment.  Machine integers are Nat with explicit
reduction mod 2^32 or 2^16 where overflow matters.
-/

/-- The 32-bit modulus used for TCP sequence-number arithmetic. -/
def U32_MOD : Nat := 2 ^ 32

/-- From tcp.h: flag bit NET_TCP_IN_USE = BIT(0). -/
def NET_TCP_IN_USE : Nat := 1

/-- From tcp.h: flag bit NET_TCP_FINAL_SENT = BIT(1). -/
def NET_TCP_FINAL_SENT : Nat := 2

/-- From tcp.h: flag bit NET_TCP_FINAL_RECV = BIT(2). -/
def NET_TCP_FINAL_RECV : Nat := 4

/-- From tcp.h: flag bit NET_TCP_IS_SHUTDOWN = BIT(3). -/
def NET_TCP_IS_SHUTDOWN : Nat := 8

/-- From tcp.h: flag bit NET_TCP_RETRYING = BIT(4). -/
def NET_TCP_RETRYING : Nat := 16

/-- From tcp.h: flag bit NET_TCP_RECV_MSS_SET = BIT(5). -/
def NET_TCP_RECV_MSS_SET : Nat := 32

/-- From tcp.h: enum net_tcp_state, the 11 TCP connection states. -/
inductive net_tcp_state where
  | NET_TCP_CLOSED
  | NET_TCP_LISTEN
  | NET_TCP_SYN_SENT
  | NET_TCP_SYN_RCVD
  | NET_TCP_ESTABLISHED
  | NET_TCP_CLOSE_WAIT
  | NET_TCP_LAST_ACK
  | NET_TCP_FIN_WAIT_1
  | NET_TCP_FIN_WAIT_2
  | NET_TCP_TIME_WAIT
  | NET_TCP_CLOSING
  deriving DecidableEq, Repr, Fintype

open net_tcp_state

/-- From tcp.h: RFC 1122 default MSS when no MSS option was received. -/
def NET_TCP_DEFAULT_MSS : Nat := 536

/-- From tcp.h: maximal option space in a prepared segment. -/
def NET_TCP_MAX_OPT_SIZE : Nat := 8

/-- From tcp.h: TCP option code END. -/
def NET_TCP_END_OPT : Nat := 0

/-- From tcp.h: TCP option code NOP. -/
def NET_TCP_NOP_OPT : Nat := 1

/-- From tcp.h: TCP option code MSS. -/
def NET_TCP_MSS_OPT : Nat := 2

/-- From tcp.h: TCP option code WINDOW_SCALE. -/
def NET_TCP_WINDOW_SCALE_OPT : Nat := 3

/-- From tcp.h: encoded size of the MSS option. -/
def NET_TCP_MSS_SIZE : Nat := 4

/-- From tcp.h: encoded size of the WINDOW_SCALE option. -/
def NET_TCP_WINDOW_SCALE_SIZE : Nat := 3

/-- From tcp.h: struct net_tcp_options, the parsed TCP option values
(only mss so far). -/
structure net_tcp_options where
  mss : Nat
  deriving DecidableEq, Repr

/-- A sent-list entry: an outstanding unacknowledged outbound segment,
recorded as its sequence range (start and byte length) plus the
transmission timestamp, as described in spec section 3. -/
structure SentEntry where
  seq : Nat
  len : Nat
  stamp : Nat
  deriving DecidableEq, Repr

/-- A per-connection delayed-work timer, modelled by its armed bit. -/
structure Timer where
  armed : Bool
  deriving DecidableEq, Repr

/-- From tcp.h: struct net_tcp, the TCP connection control block.
Pointer-valued fields (context back pointer, callbacks, semaphore) are
omitted; the three timers are modelled by their armed bits, the packed
bitfields (retry_timeout_shift:5, flags:8, state:4, fin_sent:1,
fin_rcvd:1) become explicit fields. -/
structure net_tcp where
  ack_timer : Timer
  fin_timer : Timer
  retry_timer : Timer
  sent_list : List SentEntry
  recv_max_ack : Nat
  send_seq : Nat
  send_ack : Nat
  sent_ack : Nat
  retry_timeout_shift : Nat
  flags : Nat
  state : net_tcp_state
  fin_sent : Bool
  fin_rcvd : Bool
  recv_wnd : Nat
  send_mss : Nat
  deriving DecidableEq, Repr

/-- A 32-bit wraparound subtraction: the unique representative of
a - b in [0, 2^32), computed without Nat truncation. -/
def u32sub (a b : Nat) : Nat :=
  (a % U32_MOD + U32_MOD - b % U32_MOD) % U32_MOD

/-- Modelled from the spec (section 4.4, implementation of
net_tcp_validate_seq is not under src): accept a segment iff its
sequence number lies in [send_ack, send_ack + recv_wnd) using 32-bit
wraparound-aware comparison. -/
def net_tcp_validate_seq (tcp : net_tcp) (seq : Nat) : Bool :=
  u32sub seq tcp.send_ack < tcp.recv_wnd

/-- Helper: u32sub agrees with integer subtraction mod 2^32. -/
theorem u32sub_eq_int (a b : Nat) (ha : a < U32_MOD) (hb : b < U32_MOD) :
    (u32sub a b : Int) = ((a : Int) - (b : Int)) % (U32_MOD : Int) := by
  unfold u32sub U32_MOD at *
  omega

/-- A concrete connection control block used by witnesses: CLOSED
state, all timers disarmed, empty sent list, all numeric fields 0. -/
def baseTcp : net_tcp :=
  { ack_timer := ⟨false⟩
    fin_timer := ⟨false⟩
    retry_timer := ⟨false⟩
    sent_list := []
    recv_max_ack := 0
    send_seq := 0
    send_ack := 0
    sent_ack := 0
    retry_timeout_shift := 0
    flags := 0
    state := NET_TCP_CLOSED
    fin_sent := false
    fin_rcvd := false
    recv_wnd := 0
    send_mss := NET_TCP_DEFAULT_MSS }

/-- C2: for receive-ack base B = send_ack and receive window W, and any
inbound 32-bit sequence number s, net_tcp_validate_seq returns true iff
(s - B) mod 2^32 < W, the wraparound-aware modular comparison. -/
theorem validate_seq_iff_mod (tcp : net_tcp) (s : Nat)
    (hs : s < U32_MOD) (hB : tcp.send_ack < U32_MOD) :
    net_tcp_validate_seq tcp s = true ↔
      ((s : Int) - (tcp.send_ack : Int)) % (U32_MOD : Int) <
        (tcp.recv_wnd : Int) := by
  unfold net_tcp_validate_seq
  rw [decide_eq_true_eq, ← u32sub_eq_int s tcp.send_ack hs hB]
  exact_mod_cast Iff.rfl

/-- C2 witness: at the wraparound boundary B = 0xFFFFFFF0, W = 64, the
sequence number s = 16 (which is 32 bytes past B mod 2^32) satisfies the
hypotheses and the modular characterization, hence is accepted. -/
theorem validate_seq_iff_mod_witness :
    16 < U32_MOD ∧ (0xFFFFFFF0 : Nat) < U32_MOD ∧
      (net_tcp_validate_seq
        { baseTcp with send_ack := 0xFFFFFFF0, recv_wnd := 64 } 16 = true ↔
        ((16 : Int) - ((0xFFFFFFF0 : Nat) : Int)) % (U32_MOD : Int) <
          ((64 : Nat) : Int)) :=
  ⟨by decide, by decide,
    validate_seq_iff_mod
      { baseTcp with send_ack := 0xFFFFFFF0, recv_wnd := 64 } 16
      (by decide) (by decide)⟩

/-- Events driving the TCP state machine, as enumerated in spec
section 4.1: application opens and close, inbound SYN, SYN+ACK,
handshake-completing ACK, FIN (with simultaneous-close detection),
ACK of FIN, inbound RST, fatal local error, TIME_WAIT expiry. -/
inductive tcp_event where
  | activeOpen
  | passiveOpen
  | synRcvd
  | synAckRcvd
  | ackRcvd
  | appClose
  | finRcvd (simult : Bool)
  | ackOfFinRcvd
  | rstRcvd
  | fatalError
  | timeWaitExpired
  deriving DecidableEq, Repr, Fintype

/-- From tcp.h: net_tcp_change_state updates the state field of the
control block (the observer hook carries no further state effect). -/
def net_tcp_change_state (tcp : net_tcp) (new_state : net_tcp_state) :
    net_tcp :=
  { tcp with state := new_state }

/-- Modelled from the spec (section 4.1, the state-machine
implementation is not under src): the next state for each
(state, event) pair; pairs outside the table leave the state
unchanged (the segment is dropped). -/
def tcp_next (s : net_tcp_state) (e : tcp_event) : net_tcp_state :=
  match s, e with
  | _, .rstRcvd => NET_TCP_CLOSED
  | _, .fatalError => NET_TCP_CLOSED
  | NET_TCP_CLOSED, .activeOpen => NET_TCP_SYN_SENT
  | NET_TCP_CLOSED, .passiveOpen => NET_TCP_LISTEN
  | NET_TCP_LISTEN, .synRcvd => NET_TCP_SYN_RCVD
  | NET_TCP_SYN_SENT, .synAckRcvd => NET_TCP_ESTABLISHED
  | NET_TCP_SYN_RCVD, .ackRcvd => NET_TCP_ESTABLISHED
  | NET_TCP_ESTABLISHED, .appClose => NET_TCP_FIN_WAIT_1
  | NET_TCP_CLOSE_WAIT, .appClose => NET_TCP_LAST_ACK
  | NET_TCP_ESTABLISHED, .finRcvd _ => NET_TCP_CLOSE_WAIT
  | NET_TCP_FIN_WAIT_1, .finRcvd simult =>
      if simult then NET_TCP_CLOSING else NET_TCP_FIN_WAIT_2
  | NET_TCP_FIN_WAIT_2, .finRcvd _ => NET_TCP_TIME_WAIT
  | NET_TCP_FIN_WAIT_1, .ackOfFinRcvd => NET_TCP_FIN_WAIT_2
  | NET_TCP_CLOSING, .ackOfFinRcvd => NET_TCP_TIME_WAIT
  | NET_TCP_LAST_ACK, .ackOfFinRcvd => NET_TCP_CLOSED
  | NET_TCP_TIME_WAIT, .timeWaitExpired => NET_TCP_CLOSED
  | s, _ => s

/-- The RFC 793 transition table of spec section 4.1, written out as a
relation on (state, event, state) triples. -/
def specEdge (s : net_tcp_state) (e : tcp_event) (t : net_tcp_state) :
    Bool :=
  match s, e, t with
  | _, .rstRcvd, NET_TCP_CLOSED => true
  | _, .fatalError, NET_TCP_CLOSED => true
  | NET_TCP_CLOSED, .activeOpen, NET_TCP_SYN_SENT => true
  | NET_TCP_CLOSED, .passiveOpen, NET_TCP_LISTEN => true
  | NET_TCP_LISTEN, .synRcvd, NET_TCP_SYN_RCVD => true
  | NET_TCP_SYN_SENT, .synAckRcvd, NET_TCP_ESTABLISHED => true
  | NET_TCP_SYN_RCVD, .ackRcvd, NET_TCP_ESTABLISHED => true
  | NET_TCP_ESTABLISHED, .appClose, NET_TCP_FIN_WAIT_1 => true
  | NET_TCP_CLOSE_WAIT, .appClose, NET_TCP_LAST_ACK => true
  | NET_TCP_ESTABLISHED, .finRcvd _, NET_TCP_CLOSE_WAIT => true
  | NET_TCP_FIN_WAIT_1, .finRcvd _, NET_TCP_CLOSING => true
  | NET_TCP_FIN_WAIT_1, .finRcvd _, NET_TCP_FIN_WAIT_2 => true
  | NET_TCP_FIN_WAIT_2, .finRcvd _, NET_TCP_TIME_WAIT => true
  | NET_TCP_FIN_WAIT_1, .ackOfFinRcvd, NET_TCP_FIN_WAIT_2 => true
  | NET_TCP_CLOSING, .ackOfFinRcvd, NET_TCP_TIME_WAIT => true
  | NET_TCP_LAST_ACK, .ackOfFinRcvd, NET_TCP_CLOSED => true
  | NET_TCP_TIME_WAIT, .timeWaitExpired, NET_TCP_CLOSED => true
  | _, _, _ => false

/-- Modelled from the spec (sections 4.1 and 4.3): abort a connection
on inbound RST or fatal local error — go to CLOSED, discard the sent
list, cancel all three timers. -/
def tcp_abort (tcp : net_tcp) : net_tcp :=
  { net_tcp_change_state tcp NET_TCP_CLOSED with
    sent_list := []
    ack_timer := ⟨false⟩
    fin_timer := ⟨false⟩
    retry_timer := ⟨false⟩ }

/-- Modelled from the spec (section 4.1, the event-processing
implementation is not under src): process one state-machine event on a
connection control block. -/
def tcp_step (tcp : net_tcp) (e : tcp_event) : net_tcp :=
  match e with
  | .rstRcvd => tcp_abort tcp
  | .fatalError => tcp_abort tcp
  | _ => net_tcp_change_state tcp (tcp_next tcp.state e)

/-- The list of the 11 enum values of net_tcp_state. -/
def allTcpStates : List net_tcp_state :=
  [NET_TCP_CLOSED, NET_TCP_LISTEN, NET_TCP_SYN_SENT, NET_TCP_SYN_RCVD,
   NET_TCP_ESTABLISHED, NET_TCP_CLOSE_WAIT, NET_TCP_LAST_ACK,
   NET_TCP_FIN_WAIT_1, NET_TCP_FIN_WAIT_2, NET_TCP_TIME_WAIT,
   NET_TCP_CLOSING]

/-- Helper: the state reached by tcp_step is computed by tcp_next. -/
theorem tcp_step_state (tcp : net_tcp) (e : tcp_event) :
    (tcp_step tcp e).state = tcp_next tcp.state e := by
  cases e <;>
    first
      | rfl
      | (generalize tcp.state = s; cases s <;> rfl)

/-- Helper: every state-changing edge of tcp_next is in the table. -/
theorem tcp_next_in_table (s : net_tcp_state) (e : tcp_event) :
    tcp_next s e ≠ s → specEdge s e (tcp_next s e) = true := by
  revert s e; decide

/-- C1: every state change of a connection follows an edge of the RFC
793 transition table of spec section 4.1; an inbound RST or fatal
local error moves any state to CLOSED, discarding the sent list and
cancelling all three timers; and the resulting state is always one of
the 11 enum values. -/
theorem tcp_state_machine_safe (tcp : net_tcp) (e : tcp_event) :
    ((tcp_step tcp e).state ≠ tcp.state →
      specEdge tcp.state e (tcp_step tcp e).state = true) ∧
    (e = .rstRcvd ∨ e = .fatalError →
      (tcp_step tcp e).state = NET_TCP_CLOSED ∧
      (tcp_step tcp e).sent_list = [] ∧
      (tcp_step tcp e).ack_timer.armed = false ∧
      (tcp_step tcp e).fin_timer.armed = false ∧
      (tcp_step tcp e).retry_timer.armed = false) ∧
    (tcp_step tcp e).state ∈ allTcpStates := by
  refine ⟨?_, ?_, ?_⟩
  · rw [tcp_step_state]
    exact tcp_next_in_table tcp.state e
  · rintro (rfl | rfl) <;>
      exact ⟨rfl, rfl, rfl, rfl, rfl⟩
  · have h : ∀ t : net_tcp_state, t ∈ allTcpStates := by decide
    exact h _

/-- An ESTABLISHED connection with one outstanding 10-byte segment at
sequence 0 and the retry timer armed, used by witnesses. -/
def estTcp : net_tcp :=
  { baseTcp with
    state := NET_TCP_ESTABLISHED
    send_seq := 10
    sent_list := [⟨0, 10, 0⟩]
    retry_timer := ⟨true⟩ }

/-- C1 witness: the ESTABLISHED connection with an outstanding segment
and an armed retry timer, hit by an inbound RST, satisfies all three
conjuncts of the state-machine safety theorem. -/
theorem tcp_state_machine_safe_witness :
    (((tcp_step estTcp .rstRcvd).state ≠ estTcp.state →
      specEdge estTcp.state .rstRcvd ((tcp_step estTcp .rstRcvd).state)
        = true) ∧
     ((tcp_event.rstRcvd = tcp_event.rstRcvd ∨
       tcp_event.rstRcvd = tcp_event.fatalError) →
      (tcp_step estTcp .rstRcvd).state = NET_TCP_CLOSED ∧
      (tcp_step estTcp .rstRcvd).sent_list = [] ∧
      (tcp_step estTcp .rstRcvd).ack_timer.armed = false ∧
      (tcp_step estTcp .rstRcvd).fin_timer.armed = false ∧
      (tcp_step estTcp .rstRcvd).retry_timer.armed = false) ∧
     (tcp_step estTcp .rstRcvd).state ∈ allTcpStates) :=
  tcp_state_machine_safe estTcp .rstRcvd

/-- The number of outstanding (unacknowledged) sequence units between
recv_max_ack and send_seq, in 32-bit modular distance. -/
def unackedDist (tcp : net_tcp) : Nat :=
  u32sub tcp.send_seq tcp.recv_max_ack

/-- A cumulative ACK value is valid when it lies within
[recv_max_ack, send_seq] in 32-bit modular order, as required of a
valid cumulative ACK by spec sections 3 and 4.3. -/
def validAck (tcp : net_tcp) (a : Nat) : Bool :=
  u32sub a tcp.recv_max_ack ≤ unackedDist tcp

/-- Remove or trim one sent-list entry against a cumulative ACK a,
measuring positions as modular distances from the base B (the old
recv_max_ack): an entry whose range ends at or before a is removed, an
entry whose range starts before a but ends after it is trimmed to the
uncovered part, any other entry is kept whole. -/
def trimEntry (B a : Nat) (en : SentEntry) : Option SentEntry :=
  let ad := u32sub a B
  let sd := u32sub en.seq B
  if sd + en.len ≤ ad then none
  else if sd < ad then
    some { en with seq := a % U32_MOD, len := sd + en.len - ad }
  else some en

/-- Modelled from the spec (section 4.3, implementation of
net_tcp_ack_received is not under src): on a valid cumulative ACK,
advance recv_max_ack, remove or trim every sent-list entry covered by
the ack, reset the retry-timeout exponent to 0, and disarm the retry
timer when the sent list became empty, otherwise rearm it for the
remaining oldest entry; an invalid ack leaves the connection
unchanged. -/
def net_tcp_ack_received (tcp : net_tcp) (a : Nat) : net_tcp :=
  if validAck tcp a then
    { tcp with
      recv_max_ack := a % U32_MOD
      sent_list := tcp.sent_list.filterMap (trimEntry tcp.recv_max_ack a)
      retry_timeout_shift := 0
      retry_timer :=
        ⟨!(tcp.sent_list.filterMap (trimEntry tcp.recv_max_ack a)).isEmpty⟩ }
  else tcp

/-- Modelled from the spec (section 4.3): queueing a new data segment
of len bytes appends a sent-list entry for [send_seq, send_seq + len)
stamped with the current time, advances send_seq, and arms the retry
timer if not already armed. -/
def net_tcp_queue_data (tcp : net_tcp) (len now : Nat) : net_tcp :=
  { tcp with
    send_seq := (tcp.send_seq + len) % U32_MOD
    sent_list := tcp.sent_list ++ [⟨tcp.send_seq % U32_MOD, len, now⟩]
    retry_timer := ⟨true⟩ }

/-- Modelled from the spec (section 4.3): the initial retry timeout of
the exponential backoff (a configured constant; the concrete value is
not given by the source). -/
def TCP_RETRY_TIMEOUT_INIT : Nat := 200

/-- Modelled from the spec (section 4.3): the configured ceiling that
the computed retry timeout never exceeds. -/
def TCP_RETRY_TIMEOUT_CEILING : Nat := 60000

/-- The computed retry timeout for a given backoff exponent: the
doubled initial timeout, capped at the configured ceiling. -/
def retryTimeout (shift : Nat) : Nat :=
  min (TCP_RETRY_TIMEOUT_INIT * 2 ^ shift) TCP_RETRY_TIMEOUT_CEILING

/-- Modelled from the spec (section 4.3, the retry-timer callback is
not under src): a retry-timer fire retransmits the oldest
unacknowledged sent-list entry (returned as the second component),
increments the 5-bit backoff exponent capped at 31, and sets the
NET_TCP_RETRYING flag; with an empty sent list the fire is a no-op
retransmitting nothing. -/
def net_tcp_retry_fire (tcp : net_tcp) : net_tcp × Option SentEntry :=
  match tcp.sent_list with
  | [] => (tcp, none)
  | oldest :: _ =>
    ({ tcp with
        retry_timeout_shift := min (tcp.retry_timeout_shift + 1) 31
        flags := tcp.flags ||| NET_TCP_RETRYING },
     some oldest)

/-- C3: a valid cumulative ACK a advances recv_max_ack to a, leaves no
sent-list entry fully covered by a (covered entries are removed,
partially covered ones trimmed to start at a), resets the
retry-timeout exponent to 0, and disarms the retry timer exactly when
the sent list became empty. -/
theorem ack_received_spec (tcp : net_tcp) (a : Nat)
    (ha : a < U32_MOD) (hv : validAck tcp a = true) :
    (net_tcp_ack_received tcp a).recv_max_ack = a ∧
    (∀ en ∈ (net_tcp_ack_received tcp a).sent_list,
      u32sub a tcp.recv_max_ack < u32sub en.seq tcp.recv_max_ack + en.len) ∧
    (net_tcp_ack_received tcp a).retry_timeout_shift = 0 ∧
    ((net_tcp_ack_received tcp a).retry_timer.armed = false ↔
      (net_tcp_ack_received tcp a).sent_list = []) := by
  unfold net_tcp_ack_received
  rw [if_pos hv]
  refine ⟨by simpa using Nat.mod_eq_of_lt ha, ?_, rfl, ?_⟩
  · intro en hen
    rcases List.mem_filterMap.mp hen with ⟨x, _, hx⟩
    unfold trimEntry at hx
    dsimp only at hx
    by_cases h1 : u32sub x.seq tcp.recv_max_ack + x.len ≤
        u32sub a tcp.recv_max_ack
    · rw [if_pos h1] at hx
      exact absurd hx (by simp)
    · rw [if_neg h1] at hx
      by_cases h2 : u32sub x.seq tcp.recv_max_ack <
          u32sub a tcp.recv_max_ack
      · rw [if_pos h2] at hx
        cases Option.some.inj hx
        have hm : u32sub (a % U32_MOD) tcp.recv_max_ack =
            u32sub a tcp.recv_max_ack := by
          unfold u32sub U32_MOD
          omega
        dsimp only
        rw [hm]
        omega
      · rw [if_neg h2] at hx
        cases Option.some.inj hx
        omega
  · dsimp only
    rw [Bool.not_eq_false', List.isEmpty_iff]

/-- C3 witness: on the ESTABLISHED connection with outstanding range
[0, 10), the valid cumulative ACK 10 covers the single entry; the
theorem applies with its hypotheses discharged. -/
theorem ack_received_spec_witness :
    (net_tcp_ack_received estTcp 10).recv_max_ack = 10 ∧
    (∀ en ∈ (net_tcp_ack_received estTcp 10).sent_list,
      u32sub 10 estTcp.recv_max_ack <
        u32sub en.seq estTcp.recv_max_ack + en.len) ∧
    (net_tcp_ack_received estTcp 10).retry_timeout_shift = 0 ∧
    ((net_tcp_ack_received estTcp 10).retry_timer.armed = false ↔
      (net_tcp_ack_received estTcp 10).sent_list = []) :=
  ack_received_spec estTcp 10 (by decide) (by decide)

/-- The connection state after one retry-timer fire (discarding the
retransmitted entry). -/
def fireState (tcp : net_tcp) : net_tcp :=
  (net_tcp_retry_fire tcp).1

/-- Helper: one fire never decreases the backoff exponent and keeps it
within the 5-bit field. -/
theorem fireState_shift (tcp : net_tcp) (h : tcp.retry_timeout_shift ≤ 31) :
    tcp.retry_timeout_shift ≤ (fireState tcp).retry_timeout_shift ∧
    (fireState tcp).retry_timeout_shift ≤ 31 := by
  unfold fireState net_tcp_retry_fire
  rcases hl : tcp.sent_list with _ | ⟨oldest, rest⟩ <;> simp [hl] <;> omega

/-- Helper: the computed retry timeout is monotone in the exponent. -/
theorem retryTimeout_mono {s t : Nat} (h : s ≤ t) :
    retryTimeout s ≤ retryTimeout t := by
  unfold retryTimeout
  exact min_le_min
    (Nat.mul_le_mul_left _ (Nat.pow_le_pow_right (by norm_num) h)) le_rfl

/-- Helper: the exponent invariant holds at every fire iterate. -/
theorem fireState_iterate_shift (tcp : net_tcp)
    (h : tcp.retry_timeout_shift ≤ 31) (n : Nat) :
    (fireState^[n] tcp).retry_timeout_shift ≤ 31 := by
  induction n with
  | zero => simpa using h
  | succ n ih =>
    rw [Function.iterate_succ_apply']
    exact (fireState_shift _ ih).2

/-- C4: a retry-timer fire on a connection with outstanding data
retransmits exactly the oldest sent-list entry, steps the backoff
exponent to min(shift+1, 31) (staying in the 5-bit field 0..31), keeps
the computed timeout non-decreasing across every sequence of
consecutive fires, never exceeds the configured ceiling, and sets the
NET_TCP_RETRYING flag (bit 4). -/
theorem retry_fire_spec (tcp : net_tcp) (oldest : SentEntry)
    (rest : List SentEntry) (hl : tcp.sent_list = oldest :: rest)
    (hsh : tcp.retry_timeout_shift ≤ 31) :
    (net_tcp_retry_fire tcp).2 = some oldest ∧
    (net_tcp_retry_fire tcp).1.retry_timeout_shift =
      min (tcp.retry_timeout_shift + 1) 31 ∧
    (net_tcp_retry_fire tcp).1.retry_timeout_shift ≤ 31 ∧
    retryTimeout tcp.retry_timeout_shift ≤
      retryTimeout (net_tcp_retry_fire tcp).1.retry_timeout_shift ∧
    retryTimeout (net_tcp_retry_fire tcp).1.retry_timeout_shift ≤
      TCP_RETRY_TIMEOUT_CEILING ∧
    (∀ n, retryTimeout (fireState^[n] tcp).retry_timeout_shift ≤
      retryTimeout (fireState^[n + 1] tcp).retry_timeout_shift) ∧
    (net_tcp_retry_fire tcp).1.flags.testBit 4 = true := by
  have hfire :
      net_tcp_retry_fire tcp =
        ({ tcp with
            retry_timeout_shift := min (tcp.retry_timeout_shift + 1) 31
            flags := tcp.flags ||| NET_TCP_RETRYING }, some oldest) := by
    unfold net_tcp_retry_fire
    rw [hl]
  refine ⟨by rw [hfire], by rw [hfire], ?_, ?_, ?_, ?_, ?_⟩
  · rw [hfire]
    dsimp only
    omega
  · rw [hfire]
    dsimp only
    exact retryTimeout_mono (by omega)
  · exact Nat.min_le_right _ _
  · intro n
    rw [Function.iterate_succ_apply']
    exact retryTimeout_mono
      (fireState_shift _ (fireState_iterate_shift tcp hsh n)).1
  · rw [hfire]
    dsimp only
    rw [Nat.testBit_or]
    exact Bool.or_eq_true_iff.mpr (Or.inr (by decide))

/-- C4 witness: firing the retry timer on the ESTABLISHED connection
with outstanding entry [0, 10) satisfies all conjuncts. -/
theorem retry_fire_spec_witness :
    (net_tcp_retry_fire estTcp).2 = some ⟨0, 10, 0⟩ ∧
    (net_tcp_retry_fire estTcp).1.retry_timeout_shift =
      min (estTcp.retry_timeout_shift + 1) 31 ∧
    (net_tcp_retry_fire estTcp).1.retry_timeout_shift ≤ 31 ∧
    retryTimeout estTcp.retry_timeout_shift ≤
      retryTimeout (net_tcp_retry_fire estTcp).1.retry_timeout_shift ∧
    retryTimeout (net_tcp_retry_fire estTcp).1.retry_timeout_shift ≤
      TCP_RETRY_TIMEOUT_CEILING ∧
    (∀ n, retryTimeout (fireState^[n] estTcp).retry_timeout_shift ≤
      retryTimeout (fireState^[n + 1] estTcp).retry_timeout_shift) ∧
    (net_tcp_retry_fire estTcp).1.flags.testBit 4 = true :=
  retry_fire_spec estTcp ⟨0, 10, 0⟩ [] (by rfl) (by decide)

/-- The operations that mutate a connection control block, as listed
in spec sections 4.1 and 4.3: a received cumulative ACK, queueing a
new data segment, a retry-timer fire, and a state-machine event. -/
inductive tcp_op where
  | ackRcvd (a : Nat)
  | queueData (len now : Nat)
  | retryFire
  | ev (e : tcp_event)

/-- Dispatch one operation on a connection control block. -/
def tcp_do (tcp : net_tcp) : tcp_op → net_tcp
  | .ackRcvd a => net_tcp_ack_received tcp a
  | .queueData len now => net_tcp_queue_data tcp len now
  | .retryFire => fireState tcp
  | .ev e => tcp_step tcp e

/-- The number of new sequence units an operation puts in flight. -/
def bytesQueued : tcp_op → Nat
  | .queueData len _ => len
  | _ => 0

/-- Helper: the wraparound distance from a value to itself is 0. -/
theorem u32sub_self (b : Nat) : u32sub b b = 0 := by
  unfold u32sub U32_MOD
  omega

/-- C9: across every operation on a connection (and hence along every
sequence of operations), recv_max_ack never moves backwards and never
moves past send_seq, in 32-bit modular order: the modular advance of
recv_max_ack is bounded by the outstanding distance to send_seq, and
the outstanding distance grows only by the bytes the operation itself
queues. -/
theorem recv_max_ack_monotone (tcp : net_tcp) (op : tcp_op) :
    u32sub (tcp_do tcp op).recv_max_ack tcp.recv_max_ack ≤
      unackedDist tcp ∧
    unackedDist (tcp_do tcp op) ≤ unackedDist tcp + bytesQueued op := by
  cases op with
  | ackRcvd a =>
    simp only [tcp_do, bytesQueued]
    unfold net_tcp_ack_received
    by_cases hv : validAck tcp a = true
    · rw [if_pos hv]
      unfold validAck unackedDist at *
      simp only [decide_eq_true_eq] at hv
      dsimp only
      constructor
      · unfold u32sub U32_MOD at *
        omega
      · unfold u32sub U32_MOD at *
        omega
    · rw [if_neg hv]
      unfold unackedDist
      rw [u32sub_self]
      omega
  | queueData len now =>
    simp only [tcp_do, bytesQueued]
    unfold net_tcp_queue_data unackedDist
    dsimp only
    rw [u32sub_self]
    refine ⟨Nat.zero_le _, ?_⟩
    unfold u32sub U32_MOD
    omega
  | retryFire =>
    simp only [tcp_do, bytesQueued]
    have h1 : (fireState tcp).recv_max_ack = tcp.recv_max_ack := by
      unfold fireState net_tcp_retry_fire
      rcases hl : tcp.sent_list with _ | ⟨o, r⟩ <;> simp [hl]
    have h2 : (fireState tcp).send_seq = tcp.send_seq := by
      unfold fireState net_tcp_retry_fire
      rcases hl : tcp.sent_list with _ | ⟨o, r⟩ <;> simp [hl]
    unfold unackedDist
    rw [h1, h2, u32sub_self]
    omega
  | ev e =>
    simp only [tcp_do, bytesQueued]
    have h1 : (tcp_step tcp e).recv_max_ack = tcp.recv_max_ack := by
      cases e <;> rfl
    have h2 : (tcp_step tcp e).send_seq = tcp.send_seq := by
      cases e <;> rfl
    unfold unackedDist
    rw [h1, h2, u32sub_self]
    omega

/-- The error kinds surfaced by the segment codec: allocation
exhaustion and malformed input / over-budget options. -/
inductive tcp_err where
  | ENOMEM
  | EINVAL
  deriving DecidableEq, Repr

/-- Modelled from the spec (section 4.4, net_tcp_parse_opts is only
declared in tcp.h): walk the options region byte by byte with
explicit fuel (instantiated with the region length): END stops
parsing, NOP skips one byte, MSS carries a 4-byte option with a
big-endian 16-bit value, any other code is skipped by its encoded
length; a missing or short length byte, a length below 2 or past the
region end, or a wrong MSS length is a malformed-options error. -/
def parse_opts_go : Nat → List Nat → net_tcp_options →
    Except tcp_err net_tcp_options
  | _, [], opts => .ok opts
  | 0, _ :: _, _ => .error .EINVAL
  | fuel + 1, b :: rest, opts =>
    if b = NET_TCP_END_OPT then .ok opts
    else if b = NET_TCP_NOP_OPT then parse_opts_go fuel rest opts
    else
      match rest with
      | [] => .error .EINVAL
      | len :: rest2 =>
        if len < 2 then .error .EINVAL
        else if rest2.length + 2 < len then .error .EINVAL
        else if b = NET_TCP_MSS_OPT then
          if len = NET_TCP_MSS_SIZE then
            match rest2 with
            | hi :: lo :: rest3 =>
              parse_opts_go fuel rest3 { opts with mss := hi * 256 + lo }
            | _ => .error .EINVAL
          else .error .EINVAL
        else parse_opts_go fuel (rest2.drop (len - 2)) opts

/-- Parse the TCP options region (net_tcp_parse_opts of tcp.h): each
option updates the output only when present, so the caller initializes
the structure with the defaults. -/
def net_tcp_parse_opts (bytes : List Nat) (opts : net_tcp_options) :
    Except tcp_err net_tcp_options :=
  parse_opts_go bytes.length bytes opts

/-- Whether an options region contains an MSS option at an option
position, walking the region the same way the parser does. -/
def regionHasMSS : Nat → List Nat → Bool
  | _, [] => false
  | 0, _ :: _ => false
  | fuel + 1, b :: rest =>
    if b = NET_TCP_END_OPT then false
    else if b = NET_TCP_NOP_OPT then regionHasMSS fuel rest
    else if b = NET_TCP_MSS_OPT then true
    else
      match rest with
      | [] => false
      | len :: rest2 => regionHasMSS fuel (rest2.drop (len - 2))

/-- An options region contains an MSS option. -/
def hasMSS (bytes : List Nat) : Bool :=
  regionHasMSS bytes.length bytes

/-- Helper: a region of only NOP and END bytes parses successfully,
leaving the output untouched. -/
theorem parse_go_nop_end (fuel : Nat) :
    ∀ (bytes : List Nat) (opts : net_tcp_options),
      (∀ b ∈ bytes, b = NET_TCP_NOP_OPT ∨ b = NET_TCP_END_OPT) →
      bytes.length ≤ fuel →
      parse_opts_go fuel bytes opts = .ok opts := by
  induction fuel with
  | zero =>
    intro bytes opts h hf
    rcases bytes with _ | ⟨b, rest⟩
    · rfl
    · simp at hf
  | succ fuel ih =>
    intro bytes opts h hf
    rcases bytes with _ | ⟨b, rest⟩
    · rfl
    · rcases h b (by simp) with hb | hb
      · rw [hb]
        show parse_opts_go (fuel + 1) (1 :: rest) opts = .ok opts
        have hstep : parse_opts_go (fuel + 1) (1 :: rest) opts =
            parse_opts_go fuel rest opts := by
          simp [parse_opts_go, NET_TCP_END_OPT, NET_TCP_NOP_OPT]
        rw [hstep]
        exact ih rest opts (fun x hx => h x (by simp [hx])) (by simpa using hf)
      · rw [hb]
        show parse_opts_go (fuel + 1) (0 :: rest) opts = .ok opts
        simp [parse_opts_go, NET_TCP_END_OPT]

/-- Helper: a successful parse of a region with no MSS option leaves
the output untouched. -/
theorem parse_go_no_mss (fuel : Nat) :
    ∀ (bytes : List Nat) (opts opts' : net_tcp_options),
      regionHasMSS fuel bytes = false →
      parse_opts_go fuel bytes opts = .ok opts' →
      opts' = opts := by
  induction fuel with
  | zero =>
    intro bytes opts opts' h hp
    rcases bytes with _ | ⟨b, rest⟩
    · exact (Except.ok.inj hp).symm
    · exact absurd hp (by rw [parse_opts_go]; simp)
  | succ fuel ih =>
    intro bytes opts opts' h hp
    rcases bytes with _ | ⟨b, rest⟩
    · exact (Except.ok.inj hp).symm
    · simp only [parse_opts_go] at hp
      simp only [regionHasMSS] at h
      by_cases hb0 : b = NET_TCP_END_OPT
      · rw [if_pos hb0] at hp
        exact (Except.ok.inj hp).symm
      · rw [if_neg hb0] at hp h
        by_cases hb1 : b = NET_TCP_NOP_OPT
        · rw [if_pos hb1] at hp h
          exact ih rest opts opts' h hp
        · rw [if_neg hb1] at hp h
          by_cases hb2 : b = NET_TCP_MSS_OPT
          · rw [if_pos hb2] at h
            exact absurd h (by simp)
          · rw [if_neg hb2] at h
            rcases rest with _ | ⟨len, rest2⟩
            · exact absurd hp (by simp)
            · dsimp only at hp h
              by_cases hl1 : len < 2
              · rw [if_pos hl1] at hp
                exact absurd hp (by simp)
              · rw [if_neg hl1] at hp
                by_cases hl2 : rest2.length + 2 < len
                · rw [if_pos hl2] at hp
                  exact absurd hp (by simp)
                · rw [if_neg hl2, if_neg hb2] at hp
                  exact ih _ opts opts' h hp

/-- C5 counterexample: the one-byte region [5] (an unrecognized option
code with no length byte) contains no MSS option, yet
net_tcp_parse_opts fails on it with a malformed-options error instead
of succeeding, refuting the claim as stated. -/
theorem parse_opts_no_mss_counterexample :
    hasMSS [5] = false ∧
    net_tcp_parse_opts [5] ⟨NET_TCP_DEFAULT_MSS⟩ = .error .EINVAL := by
  constructor
  · rfl
  · rfl

/-- C5 (amended): a region of only NOP and END bytes parses
successfully with the output untouched (an initialized default MSS of
536 stays 536); and more generally, whenever net_tcp_parse_opts
succeeds on a region containing no MSS option, the MSS value in the
output is exactly the value the caller initialized. -/
theorem parse_opts_no_mss (bytes : List Nat) (opts : net_tcp_options) :
    ((∀ b ∈ bytes, b = NET_TCP_NOP_OPT ∨ b = NET_TCP_END_OPT) →
      net_tcp_parse_opts bytes opts = .ok opts) ∧
    (∀ opts', hasMSS bytes = false →
      net_tcp_parse_opts bytes opts = .ok opts' → opts' = opts) := by
  constructor
  · intro h
    exact parse_go_nop_end bytes.length bytes opts h le_rfl
  · intro opts' h hp
    exact parse_go_no_mss bytes.length bytes opts opts' h hp

/-- C5 witness: the region [NOP, NOP, END] contains no MSS option;
parsing it with the default-initialized structure succeeds and leaves
the default 536 in place. -/
theorem parse_opts_no_mss_witness :
    ((∀ b ∈ [1, 1, 0], b = NET_TCP_NOP_OPT ∨ b = NET_TCP_END_OPT) →
      net_tcp_parse_opts [1, 1, 0] ⟨NET_TCP_DEFAULT_MSS⟩ =
        .ok ⟨NET_TCP_DEFAULT_MSS⟩) ∧
    (∀ opts', hasMSS [1, 1, 0] = false →
      net_tcp_parse_opts [1, 1, 0] ⟨NET_TCP_DEFAULT_MSS⟩ = .ok opts' →
      opts' = ⟨NET_TCP_DEFAULT_MSS⟩) :=
  parse_opts_no_mss [1, 1, 0] ⟨NET_TCP_DEFAULT_MSS⟩

/-- An outbound packet built by the segment codec: the TCP header
fields it carries plus its options bytes and payload. -/
structure Packet where
  flags : Nat
  seq : Nat
  ack : Nat
  wnd : Nat
  options : List Nat
  payload : List Nat
  deriving DecidableEq, Repr

/-- Modelled from the spec (section 4.2, net_tcp_prepare_segment is
only declared in tcp.h): build a header-only segment carrying the
requested flags and the connection send_seq / send_ack; fail with an
allocation-exhaustion error when the packet allocator has no buffer
(alloc_ok = false) and with a malformed-argument error when the
options exceed the fixed 8-byte budget NET_TCP_MAX_OPT_SIZE. -/
def net_tcp_prepare_segment (alloc_ok : Bool) (tcp : net_tcp)
    (flags : Nat) (options : List Nat) : Except tcp_err Packet :=
  if NET_TCP_MAX_OPT_SIZE < options.length then .error .EINVAL
  else if alloc_ok = false then .error .ENOMEM
  else .ok
    { flags := flags
      seq := tcp.send_seq % U32_MOD
      ack := tcp.send_ack % U32_MOD
      wnd := tcp.recv_wnd
      options := options
      payload := [] }

/-- C8: net_tcp_prepare_segment returns an error (and no packet)
whenever allocation fails or the options exceed the fixed 8-byte
budget; every successful call returns a header-only packet (empty
payload) carrying the requested flags and the connection
send_seq / send_ack. -/
theorem prepare_segment_spec (alloc_ok : Bool) (tcp : net_tcp)
    (flags : Nat) (options : List Nat) :
    ((alloc_ok = false ∨ NET_TCP_MAX_OPT_SIZE < options.length) →
      ∃ e, net_tcp_prepare_segment alloc_ok tcp flags options =
        .error e) ∧
    (∀ pkt, net_tcp_prepare_segment alloc_ok tcp flags options =
        .ok pkt →
      pkt.payload = [] ∧ pkt.flags = flags ∧
      pkt.seq = tcp.send_seq % U32_MOD ∧
      pkt.ack = tcp.send_ack % U32_MOD) := by
  unfold net_tcp_prepare_segment
  constructor
  · rintro (ha | ho)
    · by_cases ho : NET_TCP_MAX_OPT_SIZE < options.length
      · rw [if_pos ho]
        exact ⟨.EINVAL, rfl⟩
      · rw [if_neg ho, if_pos ha]
        exact ⟨.ENOMEM, rfl⟩
    · rw [if_pos ho]
      exact ⟨.EINVAL, rfl⟩
  · intro pkt hp
    by_cases ho : NET_TCP_MAX_OPT_SIZE < options.length
    · rw [if_pos ho] at hp
      exact absurd hp (by simp)
    · rw [if_neg ho] at hp
      by_cases ha : alloc_ok = false
      · rw [if_pos ha] at hp
        exact absurd hp (by simp)
      · rw [if_neg ha] at hp
        cases Except.ok.inj hp
        exact ⟨rfl, rfl, rfl, rfl⟩

/-- C8 witness: with allocation failing and an empty options list, the
error branch applies; the success branch holds vacuously or by
computation at this input. -/
theorem prepare_segment_spec_witness :
    (((false : Bool) = false ∨
        NET_TCP_MAX_OPT_SIZE < ([] : List Nat).length) →
      ∃ e, net_tcp_prepare_segment false baseTcp 2 [] = .error e) ∧
    (∀ pkt, net_tcp_prepare_segment false baseTcp 2 [] = .ok pkt →
      pkt.payload = [] ∧ pkt.flags = 2 ∧
      pkt.seq = baseTcp.send_seq % U32_MOD ∧
      pkt.ack = baseTcp.send_ack % U32_MOD) :=
  prepare_segment_spec false baseTcp 2 []

/-- The encoded MSS option, as the codec lays it out per spec section
4.4: option code, length 4, then the 16-bit value big-endian. -/
def encode_mss_opt (m : Nat) : List Nat :=
  [NET_TCP_MSS_OPT, NET_TCP_MSS_SIZE, m / 256 % 256, m % 256]

/-- C6: encoding an MSS option carrying any 16-bit value m into a
segment built by net_tcp_prepare_segment and parsing the options
region of that segment with net_tcp_parse_opts yields exactly m. -/
theorem mss_roundtrip (m : Nat) (opts : net_tcp_options)
    (tcp : net_tcp) (flags : Nat) (hm : m < 65536) :
    (∀ pkt, net_tcp_prepare_segment true tcp flags
        (encode_mss_opt m) = .ok pkt →
      net_tcp_parse_opts pkt.options opts = .ok { mss := m }) ∧
    net_tcp_parse_opts (encode_mss_opt m) opts = .ok { mss := m } := by
  have hparse :
      net_tcp_parse_opts (encode_mss_opt m) opts = .ok { mss := m } := by
    unfold net_tcp_parse_opts encode_mss_opt
    show parse_opts_go 4 _ opts = _
    simp only [parse_opts_go, NET_TCP_END_OPT, NET_TCP_NOP_OPT,
      NET_TCP_MSS_OPT, NET_TCP_MSS_SIZE]
    norm_num
    omega
  refine ⟨?_, hparse⟩
  intro pkt hp
  have hopt : pkt.options = encode_mss_opt m := by
    unfold net_tcp_prepare_segment at hp
    rw [if_neg (by simp [encode_mss_opt, NET_TCP_MAX_OPT_SIZE]),
      if_neg (by simp)] at hp
    cases Except.ok.inj hp
    rfl
  rw [hopt]
  exact hparse

/-- C6 witness: encoding MSS = 1460 and parsing yields exactly 1460,
both directly and through a prepared segment. -/
theorem mss_roundtrip_witness :
    1460 < 65536 ∧
    ((∀ pkt, net_tcp_prepare_segment true baseTcp 2
        (encode_mss_opt 1460) = .ok pkt →
      net_tcp_parse_opts pkt.options ⟨NET_TCP_DEFAULT_MSS⟩ =
        .ok { mss := 1460 }) ∧
    net_tcp_parse_opts (encode_mss_opt 1460) ⟨NET_TCP_DEFAULT_MSS⟩ =
      .ok { mss := 1460 }) :=
  ⟨by decide, mss_roundtrip 1460 ⟨NET_TCP_DEFAULT_MSS⟩ baseTcp 2
    (by decide)⟩

/-- The TCP header fields, as in struct net_tcp_hdr of the network
stack headers (ports, sequence and ack numbers, offset, flags, window,
checksum, urgent pointer). -/
structure net_tcp_hdr where
  src_port : Nat
  dst_port : Nat
  seq : Nat
  ack : Nat
  offset : Nat
  hflags : Nat
  wnd : Nat
  chksum : Nat
  urg : Nat
  deriving DecidableEq, Repr

/-- The base TCP header length in bytes. -/
def NET_TCPH_LEN : Nat := 20

/-- A network packet as a sequence of fragments of bytes, with the
byte offset at which the TCP header starts. -/
structure FragPkt where
  frags : List (List Nat)
  hdrOff : Nat
  deriving DecidableEq, Repr

/-- All bytes of a packet in order, fragments concatenated. -/
def pktBytes (p : FragPkt) : List Nat :=
  p.frags.flatten

/-- Whether the TCP header lies entirely within the first fragment. -/
def hdrFitsFirstFrag (p : FragPkt) : Bool :=
  p.hdrOff + NET_TCPH_LEN ≤ (p.frags.headD []).length

/-- Read a big-endian 16-bit value at an index of a byte list. -/
def be16at (l : List Nat) (i : Nat) : Nat :=
  l.getD i 0 * 256 + l.getD (i + 1) 0

/-- Read a big-endian 32-bit value at an index of a byte list. -/
def be32at (l : List Nat) (i : Nat) : Nat :=
  be16at l i * 65536 + be16at l (i + 2)

/-- Assemble a contiguous copy of the TCP header from the packet
bytes, crossing fragment boundaries as needed. -/
def readHdr (p : FragPkt) : net_tcp_hdr :=
  { src_port := be16at ((pktBytes p).drop p.hdrOff) 0
    dst_port := be16at ((pktBytes p).drop p.hdrOff) 2
    seq := be32at ((pktBytes p).drop p.hdrOff) 4
    ack := be32at ((pktBytes p).drop p.hdrOff) 8
    offset := ((pktBytes p).drop p.hdrOff).getD 12 0
    hflags := ((pktBytes p).drop p.hdrOff).getD 13 0
    wnd := be16at ((pktBytes p).drop p.hdrOff) 14
    chksum := be16at ((pktBytes p).drop p.hdrOff) 16
    urg := be16at ((pktBytes p).drop p.hdrOff) 18 }

/-- Encode the header fields back into their 20 network-order bytes. -/
def encodeHdr (h : net_tcp_hdr) : List Nat :=
  [h.src_port / 256 % 256, h.src_port % 256,
   h.dst_port / 256 % 256, h.dst_port % 256,
   h.seq / 16777216 % 256, h.seq / 65536 % 256,
   h.seq / 256 % 256, h.seq % 256,
   h.ack / 16777216 % 256, h.ack / 65536 % 256,
   h.ack / 256 % 256, h.ack % 256,
   h.offset % 256, h.hflags % 256,
   h.wnd / 256 % 256, h.wnd % 256,
   h.chksum / 256 % 256, h.chksum % 256,
   h.urg / 256 % 256, h.urg % 256]

/-- Split a flat byte list back into fragments of the same shape as a
given fragment list. -/
def splitLike : List (List Nat) → List Nat → List (List Nat)
  | [], _ => []
  | f :: fs, bytes => bytes.take f.length :: splitLike fs (bytes.drop f.length)

/-- Commit a scratch header copy back into the packet, preserving the
fragment shape. -/
def writeHdr (p : FragPkt) (h : net_tcp_hdr) : FragPkt :=
  FragPkt.mk
    (splitLike p.frags
      ((pktBytes p).take p.hdrOff ++ encodeHdr h ++
        (pktBytes p).drop (p.hdrOff + NET_TCPH_LEN)))
    p.hdrOff

/-- The handle returned by net_tcp_get_hdr: either a pointer directly
into the first fragment of the packet, or a pointer to the populated
caller placeholder (the scratch copy). -/
inductive HdrPtr where
  | direct
  | scratch (h : net_tcp_hdr)
  deriving DecidableEq, Repr

/-- Modelled from the spec (section 4.2 and the tcp.h doc comment of
net_tcp_get_hdr, whose implementation is not under src): when the
header fits in the first fragment, return a direct pointer into the
packet and leave the caller placeholder untouched; otherwise populate
the placeholder with a contiguous scratch copy and return a pointer
to it. -/
def net_tcp_get_hdr (p : FragPkt) (hdr : net_tcp_hdr) :
    HdrPtr × net_tcp_hdr :=
  if hdrFitsFirstFrag p then (.direct, hdr)
  else (.scratch (readHdr p), readHdr p)

/-- Modelled from the spec (section 4.2 and the tcp.h doc comment of
net_tcp_set_hdr, whose implementation is not under src): with a direct
pointer the packet already holds the header, so nothing is done and
the same pointer is returned; with a scratch pointer the copy is
committed back into the packet fragments. -/
def net_tcp_set_hdr (p : FragPkt) (ptr : HdrPtr) : FragPkt × HdrPtr :=
  match ptr with
  | .direct => (p, .direct)
  | .scratch h => (writeHdr p h, .scratch h)

/-- C10: when the TCP header lies in the first fragment, net_tcp_get_hdr
returns a direct pointer without populating the placeholder, and
net_tcp_set_hdr on that pointer changes nothing and returns the same
pointer; only when the header spans a fragment boundary is the
placeholder populated (with the assembled header) and committed back
by net_tcp_set_hdr. -/
theorem get_set_hdr_spec (p : FragPkt) (hdr : net_tcp_hdr) :
    (hdrFitsFirstFrag p = true →
      net_tcp_get_hdr p hdr = (.direct, hdr) ∧
      net_tcp_set_hdr p (net_tcp_get_hdr p hdr).1 =
        (p, (net_tcp_get_hdr p hdr).1)) ∧
    (hdrFitsFirstFrag p = false →
      (net_tcp_get_hdr p hdr).2 = readHdr p ∧
      (net_tcp_get_hdr p hdr).1 = .scratch (readHdr p) ∧
      net_tcp_set_hdr p (net_tcp_get_hdr p hdr).1 =
        (writeHdr p (readHdr p), .scratch (readHdr p))) := by
  constructor
  · intro hfit
    unfold net_tcp_get_hdr
    rw [if_pos hfit]
    exact ⟨rfl, rfl⟩
  · intro hfit
    unfold net_tcp_get_hdr
    rw [if_neg (by simp [hfit])]
    exact ⟨rfl, rfl, rfl⟩

/-- C10 witness: a packet of one 20-byte fragment with the header at
offset 0 fits in the first fragment, so the direct branch applies (and
the spanning branch holds vacuously). -/
theorem get_set_hdr_spec_witness :
    (hdrFitsFirstFrag ⟨[List.replicate 20 0], 0⟩ = true →
      net_tcp_get_hdr ⟨[List.replicate 20 0], 0⟩
          ⟨0, 0, 0, 0, 0, 0, 0, 0, 0⟩ =
        (.direct, ⟨0, 0, 0, 0, 0, 0, 0, 0, 0⟩) ∧
      net_tcp_set_hdr ⟨[List.replicate 20 0], 0⟩
          (net_tcp_get_hdr ⟨[List.replicate 20 0], 0⟩
            ⟨0, 0, 0, 0, 0, 0, 0, 0, 0⟩).1 =
        (⟨[List.replicate 20 0], 0⟩,
          (net_tcp_get_hdr ⟨[List.replicate 20 0], 0⟩
            ⟨0, 0, 0, 0, 0, 0, 0, 0, 0⟩).1)) ∧
    (hdrFitsFirstFrag ⟨[List.replicate 20 0], 0⟩ = false →
      (net_tcp_get_hdr ⟨[List.replicate 20 0], 0⟩
          ⟨0, 0, 0, 0, 0, 0, 0, 0, 0⟩).2 =
        readHdr ⟨[List.replicate 20 0], 0⟩ ∧
      (net_tcp_get_hdr ⟨[List.replicate 20 0], 0⟩
          ⟨0, 0, 0, 0, 0, 0, 0, 0, 0⟩).1 =
        .scratch (readHdr ⟨[List.replicate 20 0], 0⟩) ∧
      net_tcp_set_hdr ⟨[List.replicate 20 0], 0⟩
          (net_tcp_get_hdr ⟨[List.replicate 20 0], 0⟩
            ⟨0, 0, 0, 0, 0, 0, 0, 0, 0⟩).1 =
        (writeHdr ⟨[List.replicate 20 0], 0⟩
            (readHdr ⟨[List.replicate 20 0], 0⟩),
          .scratch (readHdr ⟨[List.replicate 20 0], 0⟩))) :=
  get_set_hdr_spec ⟨[List.replicate 20 0], 0⟩ ⟨0, 0, 0, 0, 0, 0, 0, 0, 0⟩

/-- One step of the one's-complement 16-bit checksum sum: add with
end-around carry. -/
def onesAdd (a b : Nat) : Nat :=
  if a + b < 65536 then a + b else a + b - 65535

/-- The one's-complement sum of a list of 16-bit words. -/
def onesSum (l : List Nat) : Nat :=
  l.foldl onesAdd 0

/-- The 16-bit one's complement of a value. -/
def complement16 (x : Nat) : Nat :=
  65535 - x

/-- Group a byte sequence into big-endian 16-bit words, padding a
trailing odd byte with a zero low byte, as the checksum algorithm
prescribes. -/
def words16 : List Nat → List Nat
  | [] => []
  | [b] => [b * 256]
  | b1 :: b2 :: rest => (b1 * 256 + b2) :: words16 rest

/-- The material the TCP checksum covers, viewed as 16-bit words: the
IP pseudo-header and the TCP header words with the checksum field
excluded, the payload bytes, and the checksum field itself. -/
structure ChkPkt where
  words : List Nat
  payload : List Nat
  chksum : Nat
  deriving DecidableEq, Repr

/-- All summed words of a packet with a given checksum-field value. -/
def chkWords (p : ChkPkt) (field : Nat) : List Nat :=
  (p.words ++ words16 p.payload) ++ [field]

/-- Modelled from the spec (section 4.2, net_tcp_set_chksum is only
declared in tcp.h): zero the checksum field, compute the
one's-complement 16-bit sum over pseudo-header plus segment, and write
back its complement as the checksum field. -/
def net_tcp_set_chksum (p : ChkPkt) : ChkPkt :=
  { p with chksum := complement16 (onesSum (chkWords p 0)) }

/-- Modelled from the spec (section 4.2, net_tcp_get_chksum is only
declared in tcp.h): the verification residual, the complement of the
one's-complement sum over pseudo-header plus segment including the
stored checksum field; verification passes iff it is 0. -/
def net_tcp_get_chksum (p : ChkPkt) : Nat :=
  complement16 (onesSum (chkWords p p.chksum))

/-- Flip bit j of the byte at index k of a byte list. -/
def flipBit (l : List Nat) (k j : Nat) : List Nat :=
  l.set k (l.getD k 0 ^^^ 2 ^ j)

/-- Helper: the one's-complement sum is congruent to the plain sum
modulo 65535. -/
theorem foldl_onesAdd_mod (l : List Nat) :
    ∀ acc, (l.foldl onesAdd acc) % 65535 = (acc + l.sum) % 65535 := by
  induction l with
  | nil => intro acc; simp
  | cons x l ih =>
    intro acc
    rw [List.foldl_cons, ih (onesAdd acc x), List.sum_cons]
    have : (onesAdd acc x) % 65535 = (acc + x) % 65535 := by
      unfold onesAdd
      split <;> omega
    omega

/-- Helper: the one's-complement sum of bounded words stays below
2^16. -/
theorem foldl_onesAdd_lt (l : List Nat) :
    ∀ acc, acc < 65536 → (∀ x ∈ l, x < 65536) →
      l.foldl onesAdd acc < 65536 := by
  induction l with
  | nil => intro acc ha _; simpa using ha
  | cons x l ih =>
    intro acc ha h
    rw [List.foldl_cons]
    refine ih (onesAdd acc x) ?_ (fun y hy => h y (by simp [hy]))
    have hx := h x (by simp)
    unfold onesAdd
    split <;> omega

/-- Helper: every word of a byte grouping is below 2^16. -/
theorem words16_lt : ∀ (l : List Nat), (∀ b ∈ l, b < 256) →
    ∀ w ∈ words16 l, w < 65536
  | [], _, w, hw => absurd hw (by simp [words16])
  | [b], h, w, hw => by
    simp [words16] at hw
    have := h b (by simp)
    omega
  | b1 :: b2 :: rest, h, w, hw => by
    rw [words16] at hw
    rcases List.mem_cons.mp hw with hw | hw
    · have h1 := h b1 (by simp)
      have h2 := h b2 (by simp)
      omega
    · exact words16_lt rest (fun x hx => h x (by simp [hx])) w hw

/-- Helper: replacing the byte at index k changes the word sum by the
weight of that byte position (256 for the high byte of a word, 1 for
the low byte). -/
theorem words16_set_sum : ∀ (l : List Nat) (k b' : Nat), k < l.length →
    (words16 (l.set k b')).sum + (if k % 2 = 0 then 256 else 1) * l.getD k 0
      = (words16 l).sum + (if k % 2 = 0 then 256 else 1) * b'
  | [], k, b', hk => absurd hk (by simp)
  | [b], 0, b', _ => by
    simp [words16]
    ring
  | [b], k + 1, b', hk => by simp at hk
  | b1 :: b2 :: rest, 0, b', _ => by
    simp [words16]
    ring
  | b1 :: b2 :: rest, 1, b', _ => by
    simp [words16]
    ring
  | b1 :: b2 :: rest, k + 2, b', hk => by
    have ih := words16_set_sum rest k b' (by simp at hk; omega)
    have hmod : (k + 2) % 2 = k % 2 := by omega
    simp only [List.set_cons_succ, words16, List.sum_cons,
      List.getD_cons_succ, hmod]
    by_cases hpar : k % 2 = 0
    · rw [if_pos hpar] at ih ⊢
      omega
    · rw [if_neg hpar] at ih ⊢
      omega

/-- Helper: the one's-complement sum of bounded words is below 2^16. -/
theorem onesSum_lt (l : List Nat) (h : ∀ x ∈ l, x < 65536) :
    onesSum l < 65536 :=
  foldl_onesAdd_lt l 0 (by norm_num) h

/-- Helper: the one's-complement sum is congruent to the plain list
sum modulo 65535. -/
theorem onesSum_mod (l : List Nat) : onesSum l % 65535 = l.sum % 65535 := by
  have h := foldl_onesAdd_mod l 0
  simpa using h

/-- Helper: appending one word folds as a single one's addition. -/
theorem onesSum_append_single (l : List Nat) (x : Nat) :
    onesSum (l ++ [x]) = onesAdd (onesSum l) x := by
  unfold onesSum
  rw [List.foldl_append]
  simp

set_option maxRecDepth 4096 in
/-- Helper: flipping one bit of a byte keeps it a byte and changes it
by exactly the power of two of that bit. -/
theorem xor_pow_flip : ∀ b < 256, ∀ j < 8,
    b ^^^ 2 ^ j < 256 ∧
      (b ^^^ 2 ^ j = b + 2 ^ j ∨ b = (b ^^^ 2 ^ j) + 2 ^ j) := by
  decide

/-- C7: after net_tcp_set_chksum, net_tcp_get_chksum on the unmodified
packet returns a zero residual (verification passes), and flipping any
single bit of any payload byte makes the residual nonzero
(verification fails). -/
theorem chksum_roundtrip_flip (p : ChkPkt) (k j : Nat)
    (hws : ∀ w ∈ p.words, w < 65536) (hpl : ∀ b ∈ p.payload, b < 256)
    (hk : k < p.payload.length) (hj : j < 8) :
    net_tcp_get_chksum (net_tcp_set_chksum p) = 0 ∧
    net_tcp_get_chksum
      { net_tcp_set_chksum p with payload := flipBit p.payload k j } ≠ 0 := by
  have hblt : ∀ x ∈ p.words ++ words16 p.payload, x < 65536 := by
    intro x hx
    rcases List.mem_append.mp hx with h | h
    · exact hws x h
    · exact words16_lt p.payload hpl x h
  have hS : onesSum (p.words ++ words16 p.payload) < 65536 :=
    onesSum_lt _ hblt
  have h0 : onesSum ((p.words ++ words16 p.payload) ++ [0]) =
      onesSum (p.words ++ words16 p.payload) := by
    rw [onesSum_append_single]
    unfold onesAdd
    split <;> omega
  have hT : onesSum ((p.words ++ words16 p.payload) ++
      [65535 - onesSum (p.words ++ words16 p.payload)]) = 65535 := by
    rw [onesSum_append_single]
    unfold onesAdd
    split <;> omega
  have hget : net_tcp_get_chksum (net_tcp_set_chksum p) = 0 := by
    show complement16 (onesSum (chkWords (net_tcp_set_chksum p)
      (net_tcp_set_chksum p).chksum)) = 0
    have hcw : chkWords (net_tcp_set_chksum p)
        (net_tcp_set_chksum p).chksum =
        (p.words ++ words16 p.payload) ++
          [65535 - onesSum (p.words ++ words16 p.payload)] := by
      show (p.words ++ words16 p.payload) ++
          [complement16 (onesSum ((p.words ++ words16 p.payload) ++ [0]))]
        = _
      rw [h0]
      rfl
    rw [hcw, hT]
    rfl
  refine ⟨hget, ?_⟩
  intro hzero
  unfold net_tcp_get_chksum net_tcp_set_chksum flipBit chkWords at hzero
  dsimp only at hzero
  rw [h0] at hzero
  unfold complement16 at hzero
  have hb : p.payload.getD k 0 < 256 := by
    rw [List.getD_eq_getElem p.payload 0 hk]
    exact hpl _ (List.getElem_mem hk)
  obtain ⟨hb'lt, hflip⟩ := xor_pow_flip (p.payload.getD k 0) hb j hj
  have hplt' :
      ∀ x ∈ p.payload.set k (p.payload.getD k 0 ^^^ 2 ^ j), x < 256 := by
    intro x hx
    rcases List.mem_or_eq_of_mem_set hx with h | h
    · exact hpl x h
    · rw [h]
      exact hb'lt
  have hblt' : ∀ x ∈ p.words ++
      words16 (p.payload.set k (p.payload.getD k 0 ^^^ 2 ^ j)),
      x < 65536 := by
    intro x hx
    rcases List.mem_append.mp hx with h | h
    · exact hws x h
    · exact words16_lt _ hplt' x h
  have hS' : onesSum (p.words ++
      words16 (p.payload.set k (p.payload.getD k 0 ^^^ 2 ^ j))) < 65536 :=
    onesSum_lt _ hblt'
  have hT'lt : onesSum ((p.words ++
      words16 (p.payload.set k (p.payload.getD k 0 ^^^ 2 ^ j))) ++
      [65535 - onesSum (p.words ++ words16 p.payload)]) < 65536 := by
    rw [onesSum_append_single]
    unfold onesAdd
    split <;> omega
  have hT' : onesSum ((p.words ++
      words16 (p.payload.set k (p.payload.getD k 0 ^^^ 2 ^ j))) ++
      [65535 - onesSum (p.words ++ words16 p.payload)]) = 65535 := by
    omega
  have hm1 := onesSum_mod ((p.words ++ words16 p.payload) ++
    [65535 - onesSum (p.words ++ words16 p.payload)])
  rw [hT] at hm1
  simp only [List.sum_append, List.sum_cons, List.sum_nil] at hm1
  have hm2 := onesSum_mod ((p.words ++
    words16 (p.payload.set k (p.payload.getD k 0 ^^^ 2 ^ j))) ++
    [65535 - onesSum (p.words ++ words16 p.payload)])
  rw [hT'] at hm2
  simp only [List.sum_append, List.sum_cons, List.sum_nil] at hm2
  have hws2 := words16_set_sum p.payload k
    (p.payload.getD k 0 ^^^ 2 ^ j) hk
  have hd1 : 1 ≤ 2 ^ j := Nat.one_le_two_pow
  have hd2 : 2 ^ j ≤ 128 := by
    calc 2 ^ j ≤ 2 ^ 7 := Nat.pow_le_pow_right (by norm_num) (by omega)
    _ = 128 := by norm_num
  by_cases hpar : k % 2 = 0
  · rw [if_pos hpar] at hws2
    rcases hflip with h | h <;> omega
  · rw [if_neg hpar] at hws2
    rcases hflip with h | h <;> omega

/-- A concrete checksummed packet for the C7 witness: two
pseudo-header words and a three-byte payload. -/
def chkPktW : ChkPkt :=
  ⟨[4660, 6], [10, 20, 30], 0⟩

/-- C7 witness: on the concrete packet, setting the checksum then
verifying gives residual 0, and flipping bit 3 of payload byte 1 makes
verification fail; all hypotheses are discharged by computation. -/
theorem chksum_roundtrip_flip_witness :
    net_tcp_get_chksum (net_tcp_set_chksum chkPktW) = 0 ∧
    net_tcp_get_chksum { net_tcp_set_chksum chkPktW with payload := flipBit chkPktW.payload 1 3 } ≠ 0 :=
  chksum_roundtrip_flip chkPktW 1 3 (by decide) (by decide) (by decide)
    (by decide)
